import Mathlib

/-!
Shallow embedding of the parsing core of the argparse Go library
(argparse.go): the token cursor (`argsList`), the arity resolver
(`readArgStrings`), the dispatch engine (`ParseArgs` and its helpers),
and the built-in actions (`Store`, `StoreConst`, `AppendConst`, `Choice`).

Go side effects are made explicit:
- a `panic(CommandLineError ...)` (raised by `argsList.Next` on an empty
  stream and recovered by the deferred handler in `ParseArgs`) is the
  `PRes.cmdPanic` / `StepRes.cmdPanic` constructor;
- a Go runtime panic (string slicing out of range, `reflect` calls on the
  zero `reflect.Value`) is the `rtPanic` constructor; the recover handler
  in `ParseArgs` re-panics on those, crashing the process;
- a call to `exitFunc` (from `ArgumentParser.Error`, which prints usage
  and exits with status 2, or from the help callback, which exits with
  status 0) is the `exit` constructor, carrying the exit code and the
  message passed to `Error`;
- the caller's destination struct is an explicit association list
  (`Record`) from field names to values, and a `reflect.Value` handle is
  the `Handle` type; only string and string-slice fields are embedded,
  since those are the only field kinds the modelled destinations use
  (the other branches of `storeValue` are dead for such records).

Strings are modelled as Lean strings; all inputs considered are ASCII, so
Go's byte indexing and Lean's character indexing agree.
-/

namespace Argparse

/-- Arity constant: `Optional = -1` in argparse.go. -/
def Optional : Int := -1

/-- Arity constant: `OneOrMore = -2` in argparse.go. -/
def OneOrMore : Int := -2

/-- Arity constant: `ZeroOrMore = -3` in argparse.go. -/
def ZeroOrMore : Int := -3

/-- An error value as seen by the Go code: either a `CommandLineError`
or another error built with `fmt.Errorf`. -/
inductive GoError where
| cmdLine (msg : String)
| other (msg : String)
deriving DecidableEq

/-- Result of a sub-computation that can only fail by panicking with a
`CommandLineError` (the panic raised by `argsList.Next`). -/
inductive PRes (α : Type) where
| ok (a : α)
| cmdPanic (msg : String)
deriving DecidableEq

/-- The token cursor `argsList` from argparse.go: the immutable token
slice, a read position, and a one-slot pushback. The empty string in
`pushed` means "no pushback" (that is how the Go code tests it). -/
structure argsList where
  items : List String
  ptr : Nat
  pushed : String
deriving DecidableEq

/-- Go: `func (a *argsList) EOF() bool { return a.ptr >= len(a.items) }`. -/
def argsList.EOF (a : argsList) : Bool := a.items.length ≤ a.ptr

/-- Go: `argsList.Next`. Returns the pushback first if set; panics with
`CommandLineError("Not enough arguments")` (modelled as `none`) when the
stream is exhausted; otherwise yields the token under the read position
and advances. -/
def argsList.Next (a : argsList) : Option (String × argsList) :=
  if a.pushed ≠ ("") then some (a.pushed, { a with pushed := ("") })
  else if a.EOF then none
  else some (a.items.getD a.ptr (""), { a with ptr := a.ptr + 1 })

/-- Go: `argsList.Peek`. Returns the pushback if set, the empty-string
sentinel if the stream is exhausted, and the token under the read
position otherwise. -/
def argsList.Peek (a : argsList) : String :=
  if a.pushed ≠ ("") then a.pushed
  else if a.EOF then ("")
  else a.items.getD a.ptr ("")

/-- Go: `argsList.Push` stores a single pushback token. -/
def argsList.Push (a : argsList) (s : String) : argsList := { a with pushed := s }

/-- Number of tokens the cursor can still yield; decreases at every
successful `Next`, so it serves as the termination measure of the
consuming loops. -/
def argsList.rem (a : argsList) : Nat :=
  (if a.pushed = ("") then 0 else 1) + (a.items.length - a.ptr)

theorem argsList.next_rem {a : argsList} {s : String} {a' : argsList}
    (h : a.Next = some (s, a')) : a'.rem < a.rem := by
  unfold argsList.Next at h
  split at h
  · rename_i hp
    injection h with h1
    injection h1 with h1 h2
    subst h2
    have hp' : ¬ (a.pushed = ("")) := by simpa using hp
    simp [argsList.rem, hp']
  · split at h
    · exact absurd h (by simp)
    · rename_i hp heof
      injection h with h1
      injection h1 with h1 h2
      subst h2
      have hp' : a.pushed = ("") := by simpa using hp
      have hlt : a.ptr < a.items.length := by
        simp [argsList.EOF] at heof
        omega
      simp [argsList.rem, hp']
      omega

theorem argsList.next_rem_le {a : argsList} {s : String} {a' : argsList}
    (h : a.Next = some (s, a')) : a'.rem ≤ a.rem :=
  Nat.le_of_lt (argsList.next_rem h)

/-- The loop-stopping test that appears three times inline in
`readArgStrings`: `peek == "" || (len(peek) >= 2 && peek[0] == '-')`. -/
def peekStop (peek : String) : Bool :=
  peek = ("") || (2 ≤ peek.length && peek.data.head? = some '-')

/-- The greedy consumption loop shared by the `OneOrMore` and
`ZeroOrMore` cases of `readArgStrings`: keep consuming while the peeked
token is neither the empty sentinel nor option-like. -/
def greedyRead (a : argsList) : PRes (List String × argsList) :=
  if peekStop a.Peek then .ok ([], a)
  else
    match h : a.Next with
    | some (s, a') =>
      match greedyRead a' with
      | .ok (l, a'') => .ok (s :: l, a'')
      | .cmdPanic m => .cmdPanic m
    | none => .cmdPanic ("Not enough arguments")
termination_by a.rem
decreasing_by exact argsList.next_rem h

theorem greedyRead_rem {a : argsList} {l : List String} {a' : argsList}
    (h : greedyRead a = .ok (l, a')) : a'.rem ≤ a.rem := by
  rw [greedyRead] at h
  split at h
  · injection h with h1
    injection h1 with h1 h2
    subst h2
    exact Nat.le_refl _
  · split at h
    · rename_i s a1 heq
      split at h
      · rename_i l1 a2 hg
        injection h with h1
        injection h1 with h1 h2
        subst h2
        exact Nat.le_trans (greedyRead_rem hg) (argsList.next_rem_le heq)
      · exact absurd h (by simp)
    · exact absurd h (by simp)
termination_by a.rem
decreasing_by exact argsList.next_rem (by assumption)

/-- The `default` case of `readArgStrings`: `for i := 0; i < nArgs; i++`
pulling one token per step via `Next`. -/
def readExact : Nat → argsList → PRes (List String × argsList)
| 0, a => .ok ([], a)
| n + 1, a =>
  match a.Next with
  | some (s, a') =>
    match readExact n a' with
    | .ok (l, a'') => .ok (s :: l, a'')
    | .cmdPanic m => .cmdPanic m
  | none => .cmdPanic ("Not enough arguments")

theorem readExact_rem {n : Nat} {a : argsList} {l : List String} {a' : argsList}
    (h : readExact n a = .ok (l, a')) : a'.rem ≤ a.rem := by
  induction n generalizing a l a' with
  | zero =>
    rw [readExact] at h
    injection h with h1
    injection h1 with h1 h2
    subst h2
    exact Nat.le_refl _
  | succ n ih =>
    rw [readExact] at h
    split at h
    · rename_i s a1 hnext
      split at h
      · rename_i l1 a2 hr
        injection h with h1
        injection h1 with h1 h2
        subst h2
        exact Nat.le_trans (ih hr) (argsList.next_rem_le hnext)
      · exact absurd h (by simp)
    · exact absurd h (by simp)

/-- Go: `readArgStrings(nArgs int, args *argsList) []string` — the arity
resolver. Dispatches on the arity constants, falling through to the
exact-count loop (which, for a negative count outside the three
constants, consumes nothing, exactly as Go's `for i < nArgs` loop). -/
def readArgStrings (nArgs : Int) (a : argsList) : PRes (List String × argsList) :=
  if nArgs = Optional then
    if peekStop a.Peek then .ok ([], a)
    else
      match a.Next with
      | some (s, a') => .ok ([s], a')
      | none => .cmdPanic ("Not enough arguments")
  else if nArgs = OneOrMore then
    match a.Next with
    | some (s, a') =>
      match greedyRead a' with
      | .ok (l, a'') => .ok (s :: l, a'')
      | .cmdPanic m => .cmdPanic m
    | none => .cmdPanic ("Not enough arguments")
  else if nArgs = ZeroOrMore then
    greedyRead a
  else
    readExact nArgs.toNat a

theorem readArgStrings_rem {nArgs : Int} {a : argsList} {l : List String}
    {a' : argsList} (h : readArgStrings nArgs a = .ok (l, a')) :
    a'.rem ≤ a.rem := by
  unfold readArgStrings at h
  split at h
  · split at h
    · injection h with h1
      injection h1 with h1 h2
      subst h2
      exact Nat.le_refl _
    · split at h
      · rename_i s a1 hnext
        injection h with h1
        injection h1 with h1 h2
        subst h2
        exact argsList.next_rem_le hnext
      · exact absurd h (by simp)
  · split at h
    · split at h
      · rename_i s a1 hnext
        split at h
        · rename_i l1 a2 hg
          injection h with h1
          injection h1 with h1 h2
          subst h2
          exact Nat.le_trans (greedyRead_rem hg) (argsList.next_rem_le hnext)
        · exact absurd h (by simp)
      · exact absurd h (by simp)
    · split at h
      · exact greedyRead_rem h
      · exact readExact_rem h

/-- A field value of the caller's destination struct. Only the two field
kinds used by the modelled destinations (string and string slice) are
embedded; records never hold other kinds, so the remaining branches of
`storeValue` are dead here. -/
inductive GoVal where
| str (s : String)
| strList (l : List String)
deriving DecidableEq

/-- The `reflect.Kind` of a field value. -/
inductive GoKind where
| kstr
| kstrList
deriving DecidableEq

def GoVal.kind : GoVal → GoKind
| .str _ => .kstr
| .strList _ => .kstrList

/-- Go's `Kind().String()` for the embedded kinds. -/
def GoKind.string : GoKind → String
| .kstr => ("string")
| .kstrList => ("slice")

/-- The caller's destination struct: an association list from field names
to field values. -/
abbrev Record := List (String × GoVal)

/-- Go: `destStruct.FieldByName(name)` read access. -/
def getField (rec : Record) (name : String) : Option GoVal :=
  (rec.find? (fun p => p.1 = name)).map (fun p => p.2)

/-- Mutation through a valid field handle: replaces the value of the named
field, leaving everything else unchanged. -/
def setField (rec : Record) (name : String) (v : GoVal) : Record :=
  rec.map (fun p => if p.1 = name then (name, v) else p)

/-- A `reflect.Value` destination handle: either the zero `reflect.Value`
(a descriptor with an empty `Dest`, argparse.go lines 375 and 402 leave
`dest` unset) or a reference to a named field of the record. A
`Handle.field` is only ever built after `FieldByName` succeeded. -/
inductive Handle where
| invalid
| field (name : String)
deriving DecidableEq

/-- Go: `value.Type().Kind()` of the destination handle; `none` models the
panic of `reflect.Value.Type` on the zero `reflect.Value`. -/
def Handle.kind (h : Handle) (rec : Record) : Option GoKind :=
  match h with
  | .invalid => none
  | .field n => (getField rec n).map GoVal.kind

/-- Write through a handle known to be a valid field reference. -/
def Handle.set (h : Handle) (rec : Record) (v : GoVal) : Record :=
  match h with
  | .invalid => rec
  | .field n => setField rec n v

/-- Result of invoking an `ActionFunc`: the returned `error` (with the
possibly mutated record), or a process exit, or a runtime panic from
`reflect` on an unusable destination. -/
inductive ActRes where
| ok (rec : Record)
| err (e : GoError) (rec : Record)
| exit (code : Nat) (msg : String)
| rtPanic (msg : String)
deriving DecidableEq

/-- Go: `type ActionFunc func(int, []string, reflect.Value) error`, with
the destination record threaded explicitly. -/
abbrev ActionFunc := Int → List String → Handle → Record → ActRes

/-- Go: `storeValue(s string, value reflect.Value) error` restricted to
the embedded kinds: a string destination gets `SetString(s)`; a slice
destination falls into the `default` branch and reports the unsupported
element kind. -/
def storeValue (s : String) (kind : GoKind) : Except GoError GoVal :=
  match kind with
  | .kstr => .ok (.str s)
  | .kstrList => .error (.other (("Invalid kind for element destination: ") ++ kind.string))

/-- Go: the `Store` ActionFunc from argparse.go. `t := value.Type()`
panics on the zero `reflect.Value`. For arity 1 or `Optional` it stores
`args[0]` (a no-op when `Optional` consumed nothing; an index panic if
called with arity 1 and no strings); otherwise the destination must be a
slice and the whole consumed list is stored (string elements always
coerce, so the element loop is summarized by storing the list). -/
def Store : ActionFunc := fun nArgs args value rec =>
  match value.kind rec with
  | none => .rtPanic (("reflect: call of reflect.Value.Type on zero Value"))
  | some t =>
    if nArgs = 1 ∨ nArgs = Optional then
      if nArgs = Optional ∧ args.length = 0 then .ok rec
      else
        match args with
        | [] => .rtPanic (("index out of range"))
        | s :: _ =>
          match storeValue s t with
          | .ok v => .ok (value.set rec v)
          | .error e => .err e rec
    else if t ≠ .kstrList then
      .err (.other (("Invalid kind for Store destination: ") ++ t.string)) rec
    else
      .ok (value.set rec (.strList args))

/-- Go: `StoreConst(v)` returns an ActionFunc doing
`value.Set(reflect.ValueOf(v))`: a panic on the zero `reflect.Value`, a
panic when `v` is not assignable to the field, otherwise a plain write. -/
def StoreConst (v : GoVal) : ActionFunc := fun _ _ value rec =>
  match value.kind rec with
  | none => .rtPanic (("reflect: call of reflect.Value.Set on zero Value"))
  | some t =>
    if t = v.kind then .ok (value.set rec v)
    else .rtPanic (("reflect.Set: value of wrong type"))

/-- Go: `AppendConst(v)` returns an ActionFunc that checks
`value.Kind() == reflect.Slice` (the zero `reflect.Value` has kind
`Invalid`, so the check fails without panicking) and appends the constant
to the slice. -/
def AppendConst (v : GoVal) : ActionFunc := fun _ _ value rec =>
  match value with
  | .invalid => .err (.other (("Invalid kind for Append destination: invalid"))) rec
  | .field n =>
    match getField rec n with
    | some (.strList l) =>
      match v with
      | .str s => .ok (setField rec n (.strList (l ++ [s])))
      | .strList _ => .rtPanic (("reflect.Append: value of wrong type"))
    | some (.str _) => .err (.other (("Invalid kind for Append destination: string"))) rec
    | none => .err (.other (("Invalid kind for Append destination: invalid"))) rec

/-- Go: `Choice(subAction, choices...)`: `matched` scans the allowed set
for each consumed string. -/
def choiceMatched (choices : List String) (arg : String) : Bool :=
  choices.any (fun choice => choice = arg)

/-- Go: the Choice wrapper returns the `CommandLineError` naming the
allowed set at the first consumed string outside it, and otherwise
delegates to the wrapped action unchanged. -/
def Choice (subAction : ActionFunc) (choices : List String) : ActionFunc :=
  fun nArgs args value rec =>
    match args.find? (fun arg => !(choiceMatched choices arg)) with
    | some _ =>
      .err (.cmdLine (("Expected one of ") ++ String.intercalate (", ") choices
        ++ (" for choice argument"))) rec
    | none => subAction nArgs args value rec

/-- Go string slicing `s[n:]` restricted to the in-bounds case (callers
check or panic). ASCII inputs make byte and character offsets agree. -/
def goDrop (s : String) (n : Nat) : String := String.mk (s.data.drop n)

/-- Go string slicing `s[:n]` in the in-bounds case. -/
def goTake (s : String) (n : Nat) : String := String.mk (s.data.take n)

/-- Go: `type OptionalArgument struct` from argparse.go. -/
structure OptionalArgument where
  ShortName : Char
  LongName : String
  NArgs : Int
  Dest : String
  Action : ActionFunc
  Metavar : String
  Help : String

/-- Go: `type PositionalArgument struct` from argparse.go. -/
structure PositionalArgument where
  NArgs : Int
  Dest : String
  Action : ActionFunc
  Metavar : String
  Help : String

/-- Go: `type ArgumentParser struct` (the help-rendering fields carry no
parsing behavior but are kept for fidelity). -/
structure ArgumentParser where
  Description : String
  WordWrapWidth : Nat
  PositionalArguments : List PositionalArgument
  OptionalArguments : List OptionalArgument

/-- Observable result of one dispatch step (a Go function that returns an
`error` while mutating the cursor and the record), with the three
non-local exits made explicit. -/
inductive StepRes where
| ok (a : argsList) (rec : Record)
| err (e : GoError) (a : argsList) (rec : Record)
| exit (code : Nat) (msg : String)
| cmdPanic (msg : String)
| rtPanic (msg : String)
deriving DecidableEq

/-- Wrap an action result back into a step result at the current cursor. -/
def liftAct : ActRes → argsList → StepRes
| .ok rec, a => .ok a rec
| .err e rec, a => .err e a rec
| .exit c m, _ => .exit c m
| .rtPanic m, _ => .rtPanic m

/-- Go: `var dest reflect.Value; if arg.Dest != "" { dest =
destStruct.FieldByName(arg.Dest) }` — the handle the actions receive;
the zero `reflect.Value` when `Dest` is empty. -/
def destHandle (dest : String) : Handle :=
  if dest ≠ ("") then .field dest else .invalid

/-- Go: `(arg *OptionalArgument) parse(args, destStruct)`: resolve the
destination handle (skipped entirely when `Dest` is empty, leaving the
zero `reflect.Value`; an error when the named field does not exist), then
run the action on the resolved arity's consumed strings. -/
def OptionalArgument.parse (arg : OptionalArgument) (args : argsList)
    (destStruct : Record) : StepRes :=
  if arg.Dest ≠ ("") ∧ (getField destStruct arg.Dest).isNone then
    .err (.other (("Invalid destination struct field: ") ++ arg.Dest)) args destStruct
  else if arg.NArgs = 0 then
    liftAct (arg.Action 0 [] (destHandle arg.Dest) destStruct) args
  else
    match readArgStrings arg.NArgs args with
    | .ok (strs, args') =>
      liftAct (arg.Action arg.NArgs strs (destHandle arg.Dest) destStruct) args'
    | .cmdPanic m => .cmdPanic m

/-- Go: `(arg *PositionalArgument) parse(args, destStruct)` — the same
body as the optional variant. -/
def PositionalArgument.parse (arg : PositionalArgument) (args : argsList)
    (destStruct : Record) : StepRes :=
  if arg.Dest ≠ ("") ∧ (getField destStruct arg.Dest).isNone then
    .err (.other (("Invalid destination struct field: ") ++ arg.Dest)) args destStruct
  else if arg.NArgs = 0 then
    liftAct (arg.Action 0 [] (destHandle arg.Dest) destStruct) args
  else
    match readArgStrings arg.NArgs args with
    | .ok (strs, args') =>
      liftAct (arg.Action arg.NArgs strs (destHandle arg.Dest) destStruct) args'
    | .cmdPanic m => .cmdPanic m

/-- Go: the loop body of `parseShortOption` after the name matched, and
the `p.Error` call (usage text, then `exitFunc(2)`) when no descriptor's
short name matches. -/
def parseShortOption (p : ArgumentParser) (name : Char) (args : argsList)
    (rec : Record) : StepRes :=
  match p.OptionalArguments.find? (fun arg => arg.ShortName = name) with
  | some arg => arg.parse args rec
  | none => .exit 2 (("No such option -") ++ name.toString)

/-- Go: `parseShortOptions` ranges over every character of the cluster,
resolving each as a short option, stopping at the first non-nil error
(non-local exits abort anyway). -/
def parseShortOptions (p : ArgumentParser) (s : List Char) (args : argsList)
    (rec : Record) : StepRes :=
  match s with
  | [] => .ok args rec
  | c :: rest =>
    match parseShortOption p c args rec with
    | .ok args' rec' => parseShortOptions p rest args' rec'
    | r => r

/-- The long-name lookup loop of `parseLongOption`, including the
`p.Error` unknown-option exit. -/
def longLookup (p : ArgumentParser) (name : String) (args : argsList)
    (rec : Record) : StepRes :=
  match p.OptionalArguments.find? (fun arg => name = arg.LongName) with
  | some arg => arg.parse args rec
  | none => .exit 2 (("No such option --") ++ name)

/-- Go: `parseLongOption`. On an `=` at byte index `pos`, the source
first truncates `name = name[:pos]` and only then slices the value as
`name[pos+1:]` — an index past the end of the truncated string, so the
slice bound check (`pos + 1 ≤ len(name)` after truncation) always fails
and the Go runtime panics; the `Push` of the value is never reached. -/
def parseLongOption (p : ArgumentParser) (name : String) (args : argsList)
    (rec : Record) : StepRes :=
  match name.data.findIdx? (fun c => c = '=') with
  | some pos =>
    let name2 := goTake name pos
    if pos + 1 ≤ name2.length then
      longLookup p name2 (args.Push (goDrop name2 (pos + 1))) rec
    else .rtPanic (("slice bounds out of range"))
  | none => longLookup p name args rec

theorem findIdx?_lt_length {α : Type} (p : α → Bool) :
    ∀ (l : List α) (i : Nat), l.findIdx? p = some i → i < l.length := by
  intro l
  induction l with
  | nil => intro i h; simp [List.findIdx?] at h
  | cons x xs ih =>
    intro i h
    rw [List.findIdx?_cons] at h
    by_cases hp : p x
    · simp [hp] at h
      simp [List.length_cons]
      omega
    · simp [hp] at h
      cases hi : xs.findIdx? p with
      | none => rw [hi] at h; simp at h
      | some j =>
        rw [hi] at h
        simp at h
        have := ih j hi
        simp [List.length_cons]
        omega

/-- The `=` branch of `parseLongOption` always panics: the value slice is
taken from the already-truncated name. -/
theorem parseLongOption_eq_panic {p : ArgumentParser} {name : String}
    {args : argsList} {rec : Record} {pos : Nat}
    (h : name.data.findIdx? (fun c => c = '=') = some pos) :
    parseLongOption p name args rec = .rtPanic (("slice bounds out of range")) := by
  have hlt : pos < name.data.length := findIdx?_lt_length _ _ _ h
  have hlen : (goTake name pos).length = pos := by
    simp only [goTake]
    show (name.data.take pos).length = pos
    rw [List.length_take]
    omega
  simp only [parseLongOption, h]
  rw [hlen, if_neg (by omega)]

theorem liftAct_ok {r : ActRes} {a a1 : argsList} {rec1 : Record}
    (h : liftAct r a = .ok a1 rec1) : a1 = a := by
  cases r <;> simp [liftAct] at h
  · exact h.1.symm

theorem optArg_parse_rem {arg : OptionalArgument} {a : argsList}
    {rec : Record} {a1 : argsList} {rec1 : Record}
    (h : arg.parse a rec = .ok a1 rec1) : a1.rem ≤ a.rem := by
  unfold OptionalArgument.parse at h
  split at h
  · exact absurd h (by simp)
  · split at h
    · rw [liftAct_ok h]
    · split at h
      · rename_i strs a2 hread
        rw [liftAct_ok h]
        exact readArgStrings_rem hread
      · exact absurd h (by simp)

theorem posArg_parse_rem {arg : PositionalArgument} {a : argsList}
    {rec : Record} {a1 : argsList} {rec1 : Record}
    (h : arg.parse a rec = .ok a1 rec1) : a1.rem ≤ a.rem := by
  unfold PositionalArgument.parse at h
  split at h
  · exact absurd h (by simp)
  · split at h
    · rw [liftAct_ok h]
    · split at h
      · rename_i strs a2 hread
        rw [liftAct_ok h]
        exact readArgStrings_rem hread
      · exact absurd h (by simp)

theorem parseShortOption_rem {p : ArgumentParser} {c : Char} {a : argsList}
    {rec : Record} {a1 : argsList} {rec1 : Record}
    (h : parseShortOption p c a rec = .ok a1 rec1) : a1.rem ≤ a.rem := by
  unfold parseShortOption at h
  split at h
  · exact optArg_parse_rem h
  · exact absurd h (by simp)

theorem parseShortOptions_rem {p : ArgumentParser} {s : List Char}
    {a : argsList} {rec : Record} {a1 : argsList} {rec1 : Record}
    (h : parseShortOptions p s a rec = .ok a1 rec1) : a1.rem ≤ a.rem := by
  induction s generalizing a rec with
  | nil =>
    unfold parseShortOptions at h
    injection h with h1 h2
    rw [h1]
  | cons c rest ih =>
    unfold parseShortOptions at h
    split at h
    · rename_i a2 rec2 hstep
      exact Nat.le_trans (ih h) (parseShortOption_rem hstep)
    · rename_i hne
      exact absurd h (hne a1 rec1)

theorem longLookup_rem {p : ArgumentParser} {name : String} {a : argsList}
    {rec : Record} {a1 : argsList} {rec1 : Record}
    (h : longLookup p name a rec = .ok a1 rec1) : a1.rem ≤ a.rem := by
  unfold longLookup at h
  split at h
  · exact optArg_parse_rem h
  · exact absurd h (by simp)

theorem parseLongOption_rem {p : ArgumentParser} {name : String} {a : argsList}
    {rec : Record} {a1 : argsList} {rec1 : Record}
    (h : parseLongOption p name a rec = .ok a1 rec1) : a1.rem ≤ a.rem := by
  cases hidx : name.data.findIdx? (fun c => c = '=') with
  | some pos => rw [parseLongOption_eq_panic hidx] at h; exact absurd h (by simp)
  | none =>
    rw [parseLongOption, hidx] at h
    exact longLookup_rem h

/-- One dispatch of an option-shaped token (the if/else on `argStr[1]`
inside the `ParseArgs` loop) does not add tokens to the cursor: the only
code path that pushes, the `=` split, always panics first. -/
theorem optionStep_rem {p : ArgumentParser} {argStr : String} {a' : argsList}
    {rec : Record} {a2 : argsList} {rec2 : Record}
    (hs : (if argStr.data.get? 1 = some '-'
           then parseLongOption p (goDrop argStr 2) a' rec
           else parseShortOptions p (goDrop argStr 1).data a' rec) = .ok a2 rec2) :
    a2.rem ≤ a'.rem := by
  split at hs
  · exact parseLongOption_rem hs
  · exact parseShortOptions_rem hs

/-- Outcome of a whole `ParseArgs` call as observed from outside: the
returned error (nil or not), a process exit through `exitFunc`, or an
unrecovered runtime panic. -/
inductive Outcome where
| ok (rec : Record)
| err (e : GoError)
| exit (code : Nat) (msg : String)
| rtPanic (msg : String)
deriving DecidableEq

/-- Result of the first pass (the option-dispatch loop) of `ParseArgs`. -/
inductive Phase1Res where
| done (posArgs : List String) (rec : Record)
| retErr (e : GoError)
| exit (code : Nat) (msg : String)
| cmdPanic (msg : String)
| rtPanic (msg : String)

/-- Go: the `--` branch of the loop: `for !args.EOF() { posArgs =
append(posArgs, args.Next()) }`. (`Next` cannot panic here: the guard
just checked that the stream is not exhausted, so the dead `none` arm
returns the accumulator unchanged.) -/
def drain (a : argsList) (posArgs : List String) : List String :=
  if a.EOF then posArgs
  else
    match h : a.Next with
    | some (s, a') => drain a' (posArgs ++ [s])
    | none => posArgs
termination_by a.rem
decreasing_by exact argsList.next_rem h

/-- Go: the token-classification loop of `ParseArgs`: `--` drains the
rest as positionals; a token of length > 1 starting with `-` goes to the
long- or short-option path (a returned `CommandLineError` triggers
`p.Error`, i.e. exit 2; any other returned error is passed to the
caller); anything else is accumulated as a positional. -/
def parseLoop (p : ArgumentParser) (a : argsList) (posArgs : List String)
    (rec : Record) : Phase1Res :=
  if a.EOF then .done posArgs rec
  else
    match hn : a.Next with
    | none => .cmdPanic (("Not enough arguments"))
    | some (argStr, a') =>
      if argStr = ("--") then .done (drain a' posArgs) rec
      else if 1 < argStr.length ∧ argStr.data.head? = some '-' then
        match hs : (if argStr.data.get? 1 = some '-'
                    then parseLongOption p (goDrop argStr 2) a' rec
                    else parseShortOptions p (goDrop argStr 1).data a' rec) with
        | .ok a2 rec2 => parseLoop p a2 posArgs rec2
        | .err (.cmdLine m) a2 rec2 => .exit 2 m
        | .err (.other m) a2 rec2 => .retErr (.other m)
        | .exit c m => .exit c m
        | .cmdPanic m => .cmdPanic m
        | .rtPanic m => .rtPanic m
      else parseLoop p a' (posArgs ++ [argStr]) rec
termination_by a.rem
decreasing_by
  all_goals
    first
    | exact Nat.lt_of_le_of_lt (optionStep_rem (by assumption))
        (argsList.next_rem (by assumption))
    | exact argsList.next_rem (by assumption)

/-- Proof-side continuation combinator: the error handling at the bottom
of the dispatch-loop body, split out so single loop steps can be stated
as equations. -/
def stepCont : StepRes → ArgumentParser → List String → Phase1Res
| .ok a2 rec2, p, posArgs => parseLoop p a2 posArgs rec2
| .err (.cmdLine m) _ _, _, _ => .exit 2 m
| .err (.other m) _ _, _, _ => .retErr (.other m)
| .exit c m, _, _ => .exit c m
| .cmdPanic m, _, _ => .cmdPanic m
| .rtPanic m, _, _ => .rtPanic m

theorem parseLoop_done {p : ArgumentParser} {a : argsList}
    {posArgs : List String} {rec : Record} (h : a.EOF = true) :
    parseLoop p a posArgs rec = .done posArgs rec := by
  rw [parseLoop, if_pos h]

/-- One full iteration of the dispatch loop, as an equation. -/
theorem parseLoop_step {p : ArgumentParser} {a : argsList} {posArgs : List String}
    {rec : Record} {t : String} {b : argsList}
    (h1 : a.EOF = false) (h2 : a.Next = some (t, b)) :
    parseLoop p a posArgs rec =
      if t = ("--") then .done (drain b posArgs) rec
      else if 1 < t.length ∧ t.data.head? = some '-' then
        stepCont (if t.data.get? 1 = some '-'
                  then parseLongOption p (goDrop t 2) b rec
                  else parseShortOptions p (goDrop t 1).data b rec) p posArgs
      else parseLoop p b (posArgs ++ [t]) rec := by
  rw [parseLoop]
  rw [if_neg (by simp [h1])]
  split
  · rename_i heq
    rw [h2] at heq
    exact absurd heq (by simp)
  · rename_i argStr a2 heq
    rw [h2] at heq
    injection heq with heq
    injection heq with e1 e2
    subst e1
    subst e2
    split
    · rfl
    · split
      · cases hX : (if t.data.get? 1 = some '-'
                    then parseLongOption p (goDrop t 2) b rec
                    else parseShortOptions p (goDrop t 1).data b rec) with
        | ok a3 rec3 => simp [stepCont]
        | err e a3 rec3 => cases e <;> simp [stepCont]
        | exit c m => simp [stepCont]
        | cmdPanic m => simp [stepCont]
        | rtPanic m => simp [stepCont]
      · rfl

theorem parseLoop_shortStep {p : ArgumentParser} {a : argsList}
    {posArgs : List String} {rec : Record} {t : String} {b : argsList}
    (h1 : a.EOF = false) (h2 : a.Next = some (t, b)) (h3 : t ≠ ("--"))
    (h4 : 1 < t.length) (h5 : t.data.head? = some '-')
    (h6 : ¬ t.data.get? 1 = some '-') :
    parseLoop p a posArgs rec =
      stepCont (parseShortOptions p (goDrop t 1).data b rec) p posArgs := by
  rw [parseLoop_step h1 h2, if_neg h3, if_pos (And.intro h4 h5), if_neg h6]

theorem parseLoop_longStep {p : ArgumentParser} {a : argsList}
    {posArgs : List String} {rec : Record} {t : String} {b : argsList}
    (h1 : a.EOF = false) (h2 : a.Next = some (t, b)) (h3 : t ≠ ("--"))
    (h4 : 1 < t.length) (h5 : t.data.head? = some '-')
    (h6 : t.data.get? 1 = some '-') :
    parseLoop p a posArgs rec =
      stepCont (parseLongOption p (goDrop t 2) b rec) p posArgs := by
  rw [parseLoop_step h1 h2, if_neg h3, if_pos (And.intro h4 h5), if_pos h6]

theorem parseLoop_posStep {p : ArgumentParser} {a : argsList}
    {posArgs : List String} {rec : Record} {t : String} {b : argsList}
    (h1 : a.EOF = false) (h2 : a.Next = some (t, b)) (h3 : t ≠ ("--"))
    (h4 : ¬ (1 < t.length ∧ t.data.head? = some '-')) :
    parseLoop p a posArgs rec = parseLoop p b (posArgs ++ [t]) rec := by
  rw [parseLoop_step h1 h2, if_neg h3, if_neg h4]

theorem parseLoop_ddStep {p : ArgumentParser} {a : argsList}
    {posArgs : List String} {rec : Record} {b : argsList}
    (h1 : a.EOF = false) (h2 : a.Next = some (("--"), b)) :
    parseLoop p a posArgs rec = .done (drain b posArgs) rec := by
  rw [parseLoop_step h1 h2, if_pos rfl]

theorem drain_done {a : argsList} {posArgs : List String} (h : a.EOF = true) :
    drain a posArgs = posArgs := by
  rw [drain, if_pos h]

theorem drain_step {a : argsList} {posArgs : List String} {s : String}
    {b : argsList} (h1 : a.EOF = false) (h2 : a.Next = some (s, b)) :
    drain a posArgs = drain b (posArgs ++ [s]) := by
  rw [drain]
  rw [if_neg (by simp [h1])]
  split
  · rename_i heq
    rw [h2] at heq
    injection heq with heq
    injection heq with e1 e2
    subst e1
    subst e2
    rfl
  · rename_i heq
    rw [h2] at heq
    exact absurd heq (by simp)

theorem greedyRead_stop {a : argsList} (h : peekStop a.Peek = true) :
    greedyRead a = .ok ([], a) := by
  rw [greedyRead, if_pos h]

/-- Go: the positional re-pass at the end of `ParseArgs`: each positional
descriptor parses in declaration order; the first non-nil error is
returned to the caller as-is. -/
def posPass (pas : List PositionalArgument) (a : argsList) (rec : Record) :
    StepRes :=
  match pas with
  | [] => .ok a rec
  | pa :: rest =>
    match pa.parse a rec with
    | .ok a' rec' => posPass rest a' rec'
    | r => r

/-- Go: `ParseArgs(values, rawArgs)`. The deferred recover turns a
`CommandLineError` panic into the returned error and re-raises any other
panic; the positional buffer is re-wrapped as a fresh cursor for the
second pass. -/
def ParseArgs (p : ArgumentParser) (values : Record) (rawArgs : List String) :
    Outcome :=
  match parseLoop p ⟨rawArgs, 0, ("")⟩ [] values with
  | .done posArgs rec =>
    match posPass p.PositionalArguments ⟨posArgs, 0, ("")⟩ rec with
    | .ok _ rec' => .ok rec'
    | .err e _ _ => .err e
    | .exit c m => .exit c m
    | .cmdPanic m => .err (.cmdLine m)
    | .rtPanic m => .rtPanic m
  | .retErr e => .err e
  | .exit c m => .exit c m
  | .cmdPanic m => .err (.cmdLine m)
  | .rtPanic m => .rtPanic m

/-- The callback `New` registers for `-h`/`--help`: `p.Help()` prints and
`exitFunc(0)` terminates the process. -/
def helpAction : ActionFunc := fun _ _ _ _ => .exit 0 ("")

/-- Go: `Option()` appends an optional-argument descriptor. -/
def ArgumentParser.Option (p : ArgumentParser) (shortName : Char)
    (longName dest : String) (nArgs : Int) (action : ActionFunc)
    (metavar help : String) : ArgumentParser :=
  { p with OptionalArguments := p.OptionalArguments ++
      [{ ShortName := shortName, LongName := longName, Dest := dest,
         NArgs := nArgs, Action := action, Metavar := metavar, Help := help }] }

/-- Go: `Argument()` appends a positional-argument descriptor. -/
def ArgumentParser.Argument (p : ArgumentParser) (dest : String) (nArgs : Int)
    (action : ActionFunc) (metavar help : String) : ArgumentParser :=
  { p with PositionalArguments := p.PositionalArguments ++
      [{ Dest := dest, NArgs := nArgs, Action := action, Metavar := metavar,
         Help := help }] }

/-- Go: `New(description)`: a fresh parser that pre-registers the
`-h`/`--help` option with empty destination and arity 0. -/
def New (description : String) : ArgumentParser :=
  (ArgumentParser.mk description 80 [] []).Option 'h' ("help") ("") 0
    helpAction ("") ("Shows this help message before exiting.")

/-- True exactly when the outcome is an error value returned by
`ParseArgs` to its caller (as opposed to a process exit or a crash). -/
def Outcome.isReturnedError : Outcome → Bool
| .err _ => true
| _ => false

/-- Functorial action on `PRes`, used only to state resolver behavior. -/
def PRes.map {α β : Type} (f : α → β) : PRes α → PRes β
| .ok x => .ok (f x)
| .cmdPanic m => .cmdPanic m

end Argparse

open Argparse

/-- The parser of the repository's own `TestParse`: a single option with
short name `b`, long name `by`, destination field `By`, arity 1, `Store`. -/
def byParser : ArgumentParser :=
  (New ("pouet")).Option 'b' ("by") ("By") 1 Store ("") ("By")

/-- A destination record with the single string field `By`. -/
def byRec : Record := [(("By"), GoVal.str (""))]

/-- The parser of the repository's own `TestAppendConst`: three arity-0
options appending the constants aflag, bflag, cflag to the field
`Params`. -/
def acParser : ArgumentParser :=
  (((New ("appendconsttest")).Option 'a' ("aa") ("Params") 0
      (AppendConst (.str ("aflag"))) ("") ("Aflag")).Option 'b' ("bb")
      ("Params") 0 (AppendConst (.str ("bflag"))) ("") ("Bflag")).Option 'c'
      ("cc") ("Params") 0 (AppendConst (.str ("cflag"))) ("") ("Cflag")

/-- A destination record with the single string-slice field `Params`. -/
def acRec : Record := [(("Params"), GoVal.strList [])]

/-- A parser declaring a `--truc` option and one positional descriptor. -/
def trucParser : ArgumentParser :=
  ((New ("t")).Option 't' ("truc") ("Truc") 0 (StoreConst (.str ("yes")))
      ("") ("")).Argument ("Pos") 1 Store ("POS") ("")

/-- A destination record with string fields `Truc` and `Pos`. -/
def trucRec : Record := [(("Truc"), GoVal.str ("")), (("Pos"), GoVal.str (""))]

/-- A parser whose only user option has an empty destination identifier
but a writing action (`Store`, arity 1). -/
def noDestParser : ArgumentParser :=
  (New ("t")).Option 's' ("st") ("") 1 Store ("") ("")

/-- C1: the spec claims `--by=pouet` populates the destination exactly as
`-b pouet` does. The code disagrees: `parseLongOption` truncates `name`
to `name[:pos]` before slicing the value as `name[pos+1:]`, an
out-of-range slice of the truncated string, so every `=`-joined long
option makes the Go runtime panic (and the recover handler re-raises it),
while `-b pouet` stores `pouet`. The split-and-push structure of the code
and §4.4 of the spec show the equivalence was the intent; the truncation
order is the slip. -/
theorem c1_eq_joined_long_option_panics :
    ParseArgs byParser byRec [("--by=pouet")]
      = .rtPanic (("slice bounds out of range"))
    ∧ ParseArgs byParser byRec [("-b"), ("pouet")]
      = .ok [(("By"), GoVal.str ("pouet"))] := by
  constructor
  · rw [ParseArgs]
    rw [parseLoop_longStep (by decide)
        (show argsList.Next ⟨[("--by=pouet")], 0, ("")⟩
            = some (("--by=pouet"), ⟨[("--by=pouet")], 1, ("")⟩) by decide)
        (by decide) (by decide) (by decide) (by decide)]
    rw [show parseLongOption byParser (goDrop ("--by=pouet") 2)
          ⟨[("--by=pouet")], 1, ("")⟩ byRec
        = StepRes.rtPanic (("slice bounds out of range")) by decide]
    simp only [stepCont]
  · rw [ParseArgs]
    rw [parseLoop_shortStep (by decide)
        (show argsList.Next ⟨[("-b"), ("pouet")], 0, ("")⟩
            = some (("-b"), ⟨[("-b"), ("pouet")], 1, ("")⟩) by decide)
        (by decide) (by decide) (by decide) (by decide)]
    rw [show parseShortOptions byParser (goDrop ("-b") 1).data
          ⟨[("-b"), ("pouet")], 1, ("")⟩ byRec
        = StepRes.ok ⟨[("-b"), ("pouet")], 2, ("")⟩
            [(("By"), GoVal.str ("pouet"))] by decide]
    simp only [stepCont]
    rw [parseLoop_done (by decide)]
    decide

/-- C6: append semantics are order-preserving: against three arity-0
AppendConst-bound options on the shared slice field `Params`, the input
`-a -b -c -c -b -a` yields exactly
`[aflag, bflag, cflag, cflag, bflag, aflag]`, in encounter order. -/
theorem c6_appendconst_order_preserving :
    ParseArgs acParser acRec
        [("-a"), ("-b"), ("-c"), ("-c"), ("-b"), ("-a")]
      = .ok [(("Params"), GoVal.strList
          [("aflag"), ("bflag"), ("cflag"), ("cflag"), ("bflag"), ("aflag")])] := by
  rw [ParseArgs]
  rw [parseLoop_shortStep (by decide)
      (show argsList.Next ⟨[("-a"), ("-b"), ("-c"), ("-c"), ("-b"), ("-a")], 0, ("")⟩
          = some (("-a"), ⟨[("-a"), ("-b"), ("-c"), ("-c"), ("-b"), ("-a")], 1, ("")⟩)
        by decide)
      (by decide) (by decide) (by decide) (by decide)]
  rw [show parseShortOptions acParser (goDrop ("-a") 1).data
        ⟨[("-a"), ("-b"), ("-c"), ("-c"), ("-b"), ("-a")], 1, ("")⟩ acRec
      = StepRes.ok ⟨[("-a"), ("-b"), ("-c"), ("-c"), ("-b"), ("-a")], 1, ("")⟩
          [(("Params"), GoVal.strList [("aflag")])] by decide]
  simp only [stepCont]
  rw [parseLoop_shortStep (by decide)
      (show argsList.Next ⟨[("-a"), ("-b"), ("-c"), ("-c"), ("-b"), ("-a")], 1, ("")⟩
          = some (("-b"), ⟨[("-a"), ("-b"), ("-c"), ("-c"), ("-b"), ("-a")], 2, ("")⟩)
        by decide)
      (by decide) (by decide) (by decide) (by decide)]
  rw [show parseShortOptions acParser (goDrop ("-b") 1).data
        ⟨[("-a"), ("-b"), ("-c"), ("-c"), ("-b"), ("-a")], 2, ("")⟩
        [(("Params"), GoVal.strList [("aflag")])]
      = StepRes.ok ⟨[("-a"), ("-b"), ("-c"), ("-c"), ("-b"), ("-a")], 2, ("")⟩
          [(("Params"), GoVal.strList [("aflag"), ("bflag")])] by decide]
  simp only [stepCont]
  rw [parseLoop_shortStep (by decide)
      (show argsList.Next ⟨[("-a"), ("-b"), ("-c"), ("-c"), ("-b"), ("-a")], 2, ("")⟩
          = some (("-c"), ⟨[("-a"), ("-b"), ("-c"), ("-c"), ("-b"), ("-a")], 3, ("")⟩)
        by decide)
      (by decide) (by decide) (by decide) (by decide)]
  rw [show parseShortOptions acParser (goDrop ("-c") 1).data
        ⟨[("-a"), ("-b"), ("-c"), ("-c"), ("-b"), ("-a")], 3, ("")⟩
        [(("Params"), GoVal.strList [("aflag"), ("bflag")])]
      = StepRes.ok ⟨[("-a"), ("-b"), ("-c"), ("-c"), ("-b"), ("-a")], 3, ("")⟩
          [(("Params"), GoVal.strList [("aflag"), ("bflag"), ("cflag")])] by decide]
  simp only [stepCont]
  rw [parseLoop_shortStep (by decide)
      (show argsList.Next ⟨[("-a"), ("-b"), ("-c"), ("-c"), ("-b"), ("-a")], 3, ("")⟩
          = some (("-c"), ⟨[("-a"), ("-b"), ("-c"), ("-c"), ("-b"), ("-a")], 4, ("")⟩)
        by decide)
      (by decide) (by decide) (by decide) (by decide)]
  rw [show parseShortOptions acParser (goDrop ("-c") 1).data
        ⟨[("-a"), ("-b"), ("-c"), ("-c"), ("-b"), ("-a")], 4, ("")⟩
        [(("Params"), GoVal.strList [("aflag"), ("bflag"), ("cflag")])]
      = StepRes.ok ⟨[("-a"), ("-b"), ("-c"), ("-c"), ("-b"), ("-a")], 4, ("")⟩
          [(("Params"), GoVal.strList
            [("aflag"), ("bflag"), ("cflag"), ("cflag")])] by decide]
  simp only [stepCont]
  rw [parseLoop_shortStep (by decide)
      (show argsList.Next ⟨[("-a"), ("-b"), ("-c"), ("-c"), ("-b"), ("-a")], 4, ("")⟩
          = some (("-b"), ⟨[("-a"), ("-b"), ("-c"), ("-c"), ("-b"), ("-a")], 5, ("")⟩)
        by decide)
      (by decide) (by decide) (by decide) (by decide)]
  rw [show parseShortOptions acParser (goDrop ("-b") 1).data
        ⟨[("-a"), ("-b"), ("-c"), ("-c"), ("-b"), ("-a")], 5, ("")⟩
        [(("Params"), GoVal.strList [("aflag"), ("bflag"), ("cflag"), ("cflag")])]
      = StepRes.ok ⟨[("-a"), ("-b"), ("-c"), ("-c"), ("-b"), ("-a")], 5, ("")⟩
          [(("Params"), GoVal.strList
            [("aflag"), ("bflag"), ("cflag"), ("cflag"), ("bflag")])] by decide]
  simp only [stepCont]
  rw [parseLoop_shortStep (by decide)
      (show argsList.Next ⟨[("-a"), ("-b"), ("-c"), ("-c"), ("-b"), ("-a")], 5, ("")⟩
          = some (("-a"), ⟨[("-a"), ("-b"), ("-c"), ("-c"), ("-b"), ("-a")], 6, ("")⟩)
        by decide)
      (by decide) (by decide) (by decide) (by decide)]
  rw [show parseShortOptions acParser (goDrop ("-a") 1).data
        ⟨[("-a"), ("-b"), ("-c"), ("-c"), ("-b"), ("-a")], 6, ("")⟩
        [(("Params"), GoVal.strList
          [("aflag"), ("bflag"), ("cflag"), ("cflag"), ("bflag")])]
      = StepRes.ok ⟨[("-a"), ("-b"), ("-c"), ("-c"), ("-b"), ("-a")], 6, ("")⟩
          [(("Params"), GoVal.strList
            [("aflag"), ("bflag"), ("cflag"), ("cflag"), ("bflag"), ("aflag")])]
        by decide]
  simp only [stepCont]
  rw [parseLoop_done (by decide)]
  decide

/-- C3 counterexample: an unknown option (`-t` against a parser knowing
only `-h`, `--help`, `-b` and `--by`) does abort the parse, but not by
returning an error to the caller: `parseShortOption` calls `p.Error`,
which prints usage and terminates the process via `exitFunc(2)` (in
production `os.Exit(2)`), so `ParseArgs` never returns at all. The
outcome is a process exit, not a returned result, refuting the claim as
stated. -/
theorem c3_unknown_option_not_returned :
    ParseArgs byParser byRec [("-t")] = .exit 2 (("No such option -t"))
    ∧ Outcome.isReturnedError (ParseArgs byParser byRec [("-t")]) = false := by
  have he : ParseArgs byParser byRec [("-t")] = .exit 2 (("No such option -t")) := by
    rw [ParseArgs]
    rw [parseLoop_shortStep (by decide)
        (show argsList.Next ⟨[("-t")], 0, ("")⟩
            = some (("-t"), ⟨[("-t")], 1, ("")⟩) by decide)
        (by decide) (by decide) (by decide) (by decide)]
    rw [show parseShortOptions byParser (goDrop ("-t") 1).data
          ⟨[("-t")], 1, ("")⟩ byRec
        = StepRes.exit 2 (("No such option -t")) by decide]
    simp only [stepCont]
  exact And.intro he (by rw [he]; decide)

/-- C5 counterexample: with the single input token `""` the stream is not
exhausted and the next token does not begin with a dash, yet the Optional
resolver consumes zero tokens (the peeked empty token is identical to the
exhaustion sentinel), contradicting the claim that it "otherwise consumes
exactly one token". -/
theorem c5_empty_token_not_consumed :
    argsList.EOF ⟨[("")], 0, ("")⟩ = false
    ∧ argsList.Peek ⟨[("")], 0, ("")⟩ = ("")
    ∧ readArgStrings Optional ⟨[("")], 0, ("")⟩ = .ok ([], ⟨[("")], 0, ("")⟩) := by
  decide

/-- C7 counterexample: a descriptor with an empty destination identifier
whose action is the built-in `Store` (arity 1) does fault: `Store` starts
with `value.Type()`, which panics on the zero `reflect.Value`, the
recover handler re-raises it, and the whole parse crashes instead of
being a no-op. -/
theorem c7_store_through_absent_handle_faults :
    ParseArgs noDestParser [] [("-s"), ("x")]
      = .rtPanic (("reflect: call of reflect.Value.Type on zero Value")) := by
  rw [ParseArgs]
  rw [parseLoop_shortStep (by decide)
      (show argsList.Next ⟨[("-s"), ("x")], 0, ("")⟩
          = some (("-s"), ⟨[("-s"), ("x")], 1, ("")⟩) by decide)
      (by decide) (by decide) (by decide) (by decide)]
  rw [show parseShortOptions noDestParser (goDrop ("-s") 1).data
        ⟨[("-s"), ("x")], 1, ("")⟩ []
      = StepRes.rtPanic (("reflect: call of reflect.Value.Type on zero Value"))
      by decide]
  simp only [stepCont]

theorem argsList.eof_false {a : argsList} (h : a.ptr < a.items.length) :
    a.EOF = false := by
  simp [argsList.EOF]
  omega

theorem argsList.next_clean {a : argsList} (hp : a.pushed = (""))
    (h : a.ptr < a.items.length) :
    a.Next = some (a.items.getD a.ptr (""), { a with ptr := a.ptr + 1 }) := by
  unfold argsList.Next
  rw [if_neg (by simp [hp]), if_neg (by simp [argsList.EOF]; omega)]

theorem argsList.next_exhausted {a : argsList} (hp : a.pushed = (""))
    (h : a.items.length ≤ a.ptr) : a.Next = none := by
  unfold argsList.Next
  rw [if_neg (by simp [hp]), if_pos (by simp [argsList.EOF]; omega)]

/-- Draining a pushback-free cursor appends exactly the not-yet-read
suffix of its token list, in order. -/
theorem drain_clean {b : argsList} (posArgs : List String)
    (h : b.pushed = ("")) :
    drain b posArgs = posArgs ++ b.items.drop b.ptr := by
  by_cases he : b.ptr < b.items.length
  · have hn := argsList.next_clean h he
    rw [drain_step (argsList.eof_false he) hn]
    rw [drain_clean (posArgs ++ [b.items.getD b.ptr ("")]) (by simpa using h)]
    rw [List.append_assoc]
    congr 1
    rw [List.drop_eq_getElem_cons he]
    rw [List.getD_eq_getElem?_getD]
    rw [List.getElem?_eq_getElem he]
    rfl
  · rw [drain_done (by simp [argsList.EOF]; omega)]
    rw [List.drop_eq_nil_of_le (by omega)]
    simp
termination_by b.rem
decreasing_by exact argsList.next_rem hn

/-- Appending behavior of `readExact` at a successor count. -/
theorem readExact_succ {n : Nat} {a : argsList} {s : String} {b : argsList}
    (h : a.Next = some (s, b)) :
    readExact (n + 1) a = PRes.map (fun q => (s :: q.1, q.2)) (readExact n b) := by
  rw [readExact]
  split
  · rename_i s2 b2 heq
    rw [h] at heq
    injection heq with heq
    injection heq with e1 e2
    subst e1
    subst e2
    cases hr : readExact n b with
    | ok q =>
      obtain ⟨l1, a1⟩ := q
      rfl
    | cmdPanic m => rfl
  · rename_i heq
    rw [h] at heq
    exact absurd heq (by simp)

theorem readExact_none {n : Nat} {a : argsList} (h : a.Next = none) :
    readExact (n + 1) a = .cmdPanic (("Not enough arguments")) := by
  rw [readExact]
  split
  · rename_i s2 b2 heq
    rw [h] at heq
    exact absurd heq (by simp)
  · rfl

/-- Behavior of the exact-count loop on a pushback-free cursor: exactly
the next `N` unread tokens when that many remain, the exhaustion panic
otherwise. -/
theorem readExact_spec :
    ∀ (N : Nat) (l : List String) (k : Nat),
      (N ≤ l.length - k →
        readExact N ⟨l, k, ("")⟩ = .ok ((l.drop k).take N, ⟨l, k + N, ("")⟩))
      ∧ (l.length - k < N →
        readExact N ⟨l, k, ("")⟩ = .cmdPanic (("Not enough arguments"))) := by
  intro N
  induction N with
  | zero =>
    intro l k
    constructor
    · intro _
      simp [readExact]
    · intro h
      omega
  | succ n ih =>
    intro l k
    by_cases hk : k < l.length
    · have hnext : argsList.Next ⟨l, k, ("")⟩
          = some (l.getD k (""), ⟨l, k + 1, ("")⟩) := argsList.next_clean rfl hk
      rw [readExact_succ hnext]
      constructor
      · intro h
        rw [(ih l (k + 1)).1 (by omega)]
        simp only [PRes.map]
        have h1 : l.getD k ("") :: (l.drop (k + 1)).take n
            = (l.drop k).take (n + 1) := by
          rw [List.drop_eq_getElem_cons hk]
          rw [List.getD_eq_getElem?_getD]
          rw [List.getElem?_eq_getElem hk]
          rfl
        rw [h1]
        have h2 : k + 1 + n = k + (n + 1) := by omega
        rw [h2]
      · intro h
        rw [(ih l (k + 1)).2 (by omega)]
        rfl
    · constructor
      · intro h
        omega
      · intro h
        exact readExact_none (argsList.next_exhausted rfl
          (by show l.length ≤ k; omega))

/-- C2: once the dispatch engine reads the literal `--` token, the loop
drains every remaining token (in order, dashes notwithstanding) into the
positional buffer and the scan ends; in particular `["--", "--truc"]`
against a parser declaring a `--truc` option and one positional succeeds
with `--truc` captured as the positional value. -/
theorem c2_dashdash_reclassifies_rest :
    ∀ (p : ArgumentParser) (a b : argsList) (posArgs pos2 : List String)
      (rec : Record),
      (a.EOF = false → a.Next = some (("--"), b) →
        parseLoop p a posArgs rec = .done (drain b posArgs) rec)
      ∧ (b.pushed = ("") → drain b pos2 = pos2 ++ b.items.drop b.ptr)
      ∧ ParseArgs trucParser trucRec [("--"), ("--truc")]
          = .ok [(("Truc"), GoVal.str ("")), (("Pos"), GoVal.str ("--truc"))] := by
  intro p a b posArgs pos2 rec
  refine And.intro (fun h1 h2 => parseLoop_ddStep h1 h2)
    (And.intro (fun hb => drain_clean pos2 hb) ?_)
  rw [ParseArgs]
  rw [parseLoop_ddStep (by decide)
      (show argsList.Next ⟨[("--"), ("--truc")], 0, ("")⟩
          = some (("--"), ⟨[("--"), ("--truc")], 1, ("")⟩) by decide)]
  rw [drain_step (by decide)
      (show argsList.Next ⟨[("--"), ("--truc")], 1, ("")⟩
          = some (("--truc"), ⟨[("--"), ("--truc")], 2, ("")⟩) by decide)]
  rw [drain_done (by decide)]
  decide

/-- C2 witness: the universal parts applied at `["--", "-x"]` with the
concrete truc parser. -/
theorem c2_dashdash_reclassifies_rest_w :
    parseLoop trucParser ⟨[("--"), ("-x")], 0, ("")⟩ [] trucRec
      = .done (drain ⟨[("--"), ("-x")], 1, ("")⟩ []) trucRec
    ∧ drain ⟨[("--"), ("-x")], 1, ("")⟩ [("p")] = [("p"), ("-x")] := by
  have h := c2_dashdash_reclassifies_rest trucParser ⟨[("--"), ("-x")], 0, ("")⟩
    ⟨[("--"), ("-x")], 1, ("")⟩ [] [("p")] trucRec
  exact And.intro (h.1 (by decide) (by decide)) (h.2.1 (by decide))

/-- C4: a descriptor with exact non-negative arity `N` consumes exactly
the next `N` unread tokens, in order, when at least `N` remain, and
panics with the `CommandLineError` "Not enough arguments" (recovered by
`ParseArgs` as the returned error, the `ExhaustedInput` of the spec) when
fewer than `N` remain. -/
theorem c4_exact_arity_consumes_n (l : List String) (k N : Nat) :
    (N ≤ l.length - k →
      readArgStrings (N : Int) ⟨l, k, ("")⟩
        = .ok ((l.drop k).take N, ⟨l, k + N, ("")⟩))
    ∧ (l.length - k < N →
      readArgStrings (N : Int) ⟨l, k, ("")⟩
        = .cmdPanic (("Not enough arguments"))) := by
  have hd : readArgStrings (N : Int) ⟨l, k, ("")⟩ = readExact N ⟨l, k, ("")⟩ := rfl
  rw [hd]
  exact readExact_spec N l k

/-- C4 witness: arity 2 on two remaining tokens consumes both; arity 3 on
one remaining token panics with the exhaustion error. -/
theorem c4_exact_arity_consumes_n_w :
    readArgStrings (2 : Int) ⟨[("x"), ("y")], 0, ("")⟩
      = .ok ([("x"), ("y")], ⟨[("x"), ("y")], 2, ("")⟩)
    ∧ readArgStrings (3 : Int) ⟨[("x")], 0, ("")⟩
      = .cmdPanic (("Not enough arguments")) := by
  exact And.intro
    (((c4_exact_arity_consumes_n [("x"), ("y")] 0 2).1 (by decide)).trans (by decide))
    ((c4_exact_arity_consumes_n [("x")] 0 3).2 (by decide))

theorem peekStop_iff {s : String} :
    peekStop s = true ↔ (s = ("") ∨ (2 ≤ s.length ∧ s.data.head? = some '-')) := by
  simp [peekStop]

/-- When the peeked token is not the empty sentinel, `Next` consumes
exactly the peeked token: the pushback if one is set, the token under
the read position otherwise. -/
theorem next_of_peek {a : argsList} (h : a.Peek ≠ ("")) :
    a.Next = some (a.Peek,
      if a.pushed = ("") then { a with ptr := a.ptr + 1 }
      else { a with pushed := ("") }) := by
  unfold argsList.Next argsList.Peek at *
  by_cases hp : a.pushed = ("")
  · by_cases heof : a.EOF
    · simp [hp, heof] at h
    · simp [hp, heof] at h ⊢
  · simp [hp] at h ⊢

/-- C5 amended: the Optional resolver consumes zero tokens exactly when
the peeked token is the empty-string sentinel (stream exhausted, or a
literal empty token next) or looks like an option (length at least 2,
first character a dash); in every other case it consumes exactly one
token, the peeked one. -/
theorem c5_optional_arity_amended :
    ∀ (a : argsList),
      ((a.Peek = ("") ∨ (2 ≤ a.Peek.length ∧ a.Peek.data.head? = some '-')) →
        readArgStrings Optional a = .ok ([], a))
      ∧ (¬ (a.Peek = ("") ∨ (2 ≤ a.Peek.length ∧ a.Peek.data.head? = some '-')) →
        readArgStrings Optional a = .ok ([a.Peek],
          if a.pushed = ("") then { a with ptr := a.ptr + 1 }
          else { a with pushed := ("") })) := by
  intro a
  constructor
  · intro h
    rw [readArgStrings, if_pos rfl, if_pos (peekStop_iff.mpr h)]
  · intro h
    rw [readArgStrings, if_pos rfl,
        if_neg (by simpa [peekStop_iff] using h)]
    rw [next_of_peek (fun he => h (Or.inl he))]

/-- C5 amended witness: zero consumption at next token `-x`, single
consumption at next token `file.txt`. -/
theorem c5_optional_arity_amended_w :
    readArgStrings Optional ⟨[("-x")], 0, ("")⟩ = .ok ([], ⟨[("-x")], 0, ("")⟩)
    ∧ readArgStrings Optional ⟨[("file.txt")], 0, ("")⟩
      = .ok ([("file.txt")], ⟨[("file.txt")], 1, ("")⟩) := by
  exact And.intro
    ((c5_optional_arity_amended ⟨[("-x")], 0, ("")⟩).1 (by decide))
    (((c5_optional_arity_amended ⟨[("file.txt")], 0, ("")⟩).2 (by decide)).trans
      (by decide))

/-- C7 amended: a descriptor with an empty destination identifier never
triggers field resolution (so no invalid-field error) and hands the zero
`reflect.Value` to its action; an action that ignores the handle, such as
the help callback, is harmless, but the built-in `Store` and `StoreConst`
invoked through the absent handle panic inside `reflect` instead of being
no-ops. -/
theorem c7_absent_handle_amended :
    ∀ (g : OptionalArgument) (a : argsList) (r : Record) (n : Int)
      (l : List String) (v : GoVal),
      (g.Dest = ("") → g.NArgs = 0 →
        g.parse a r = liftAct (g.Action 0 [] Handle.invalid r) a)
      ∧ Store n l Handle.invalid r
          = .rtPanic (("reflect: call of reflect.Value.Type on zero Value"))
      ∧ StoreConst v n l Handle.invalid r
          = .rtPanic (("reflect: call of reflect.Value.Set on zero Value"))
      ∧ helpAction n l Handle.invalid r = .exit 0 ("") := by
  intro g a r n l v
  refine And.intro ?_ (And.intro rfl (And.intro rfl rfl))
  intro hd hn
  unfold OptionalArgument.parse
  rw [if_neg (by simp [hd]), if_pos hn]
  simp [destHandle, hd]

/-- C7 amended witness: the help descriptor registered by `New` (empty
destination, arity 0) parses by passing the invalid handle to its action,
and the writing actions panic on that handle. -/
theorem c7_absent_handle_amended_w :
    OptionalArgument.parse
        { ShortName := 'h', LongName := ("help"), NArgs := 0, Dest := (""),
          Action := helpAction, Metavar := (""),
          Help := ("Shows this help message before exiting.") }
        ⟨[], 0, ("")⟩ []
      = liftAct (helpAction 0 [] Handle.invalid []) ⟨[], 0, ("")⟩
    ∧ Store 1 [("x")] Handle.invalid []
        = .rtPanic (("reflect: call of reflect.Value.Type on zero Value"))
    ∧ StoreConst (GoVal.str ("k")) 0 [] Handle.invalid []
        = .rtPanic (("reflect: call of reflect.Value.Set on zero Value"))
    ∧ helpAction 0 [] Handle.invalid [] = .exit 0 ("") := by
  have h := c7_absent_handle_amended
    { ShortName := 'h', LongName := ("help"), NArgs := 0, Dest := (""),
      Action := helpAction, Metavar := (""),
      Help := ("Shows this help message before exiting.") }
    ⟨[], 0, ("")⟩ [] 1 [("x")] (GoVal.str ("k"))
  have h2 := c7_absent_handle_amended
    { ShortName := 'h', LongName := ("help"), NArgs := 0, Dest := (""),
      Action := helpAction, Metavar := (""),
      Help := ("Shows this help message before exiting.") }
    ⟨[], 0, ("")⟩ [] 0 [] (GoVal.str ("k"))
  exact And.intro (h.1 rfl rfl)
    (And.intro h.2.1 (And.intro h2.2.2.1 h2.2.2.2))

theorem choiceMatched_iff {cs : List String} {s : String} :
    choiceMatched cs s = true ↔ s ∈ cs := by
  simp only [choiceMatched, List.any_eq_true, decide_eq_true_eq]
  constructor
  · intro hx
    obtain ⟨x, hx1, hx2⟩ := hx
    exact hx2 ▸ hx1
  · intro hs
    exact ⟨s, hs, rfl⟩

/-- C8: the Choice wrapper validates membership of every consumed string
before delegating: any string outside the allowed set makes it fail with
the `CommandLineError` naming the allowed set, without invoking the
wrapped action (the record is returned unchanged); when all strings are
members, it invokes the wrapped action with exactly the original arity,
strings, handle and record. -/
theorem c8_choice_validates_before_delegating
    (f : ActionFunc) (cs : List String) (n : Int) (l : List String)
    (v : Handle) (r : Record) :
    ((∃ s ∈ l, s ∉ cs) →
      Choice f cs n l v r = .err (.cmdLine (("Expected one of ")
        ++ String.intercalate (", ") cs ++ (" for choice argument"))) r)
    ∧ ((∀ s ∈ l, s ∈ cs) → Choice f cs n l v r = f n l v r) := by
  constructor
  · intro hex
    obtain ⟨s, hs, hns⟩ := hex
    unfold Choice
    cases hf : l.find? (fun arg => !(choiceMatched cs arg)) with
    | some w => rfl
    | none =>
      exfalso
      have hc := List.find?_eq_none.mp hf s hs
      exact hns (choiceMatched_iff.mp (by simpa using hc))
  · intro hall
    unfold Choice
    rw [List.find?_eq_none.mpr ?_]
    intro x hx
    simp [choiceMatched_iff.mpr (hall x hx)]

/-- C8 witness: a consumed string outside the allowed set fails without
touching the record; consumed strings inside it delegate to the wrapped
action unchanged. -/
theorem c8_choice_validates_before_delegating_w :
    Choice Store [("x"), ("y")] 1 [("z")] (Handle.field ("F"))
        [(("F"), GoVal.str (""))]
      = .err (.cmdLine (("Expected one of ") ++ String.intercalate (", ")
          [("x"), ("y")] ++ (" for choice argument"))) [(("F"), GoVal.str (""))]
    ∧ Choice Store [("x"), ("y")] 1 [("x")] (Handle.field ("F"))
        [(("F"), GoVal.str (""))]
      = Store 1 [("x")] (Handle.field ("F")) [(("F"), GoVal.str (""))] := by
  exact And.intro
    ((c8_choice_validates_before_delegating Store [("x"), ("y")] 1 [("z")]
        (Handle.field ("F")) [(("F"), GoVal.str (""))]).1 (by decide))
    ((c8_choice_validates_before_delegating Store [("x"), ("y")] 1 [("x")]
        (Handle.field ("F")) [(("F"), GoVal.str (""))]).2 (by decide))

/-- C9: a literal empty-string token at the read position is
indistinguishable from end of input: `Peek` returns the same empty
sentinel in both situations, so the Optional branch and the greedy loops
of OneOrMore and ZeroOrMore stop there and never consume it; only the
unconditional first `Next` of OneOrMore can consume it (after which the
greedy loop continues past it). -/
theorem c9_empty_token_is_sentinel :
    ∀ (a : argsList), a.pushed = ("") → a.ptr < a.items.length →
      a.items.getD a.ptr ("x") = ("") →
      (a.Peek = ("")
       ∧ argsList.Peek { a with ptr := a.items.length } = ("")
       ∧ readArgStrings Optional a = .ok ([], a)
       ∧ readArgStrings ZeroOrMore a = .ok ([], a)
       ∧ readArgStrings OneOrMore a
           = PRes.map (fun q => (("") :: q.1, q.2))
               (greedyRead { a with ptr := a.ptr + 1 })) := by
  intro a hp hlt hx
  have hg : a.items.getD a.ptr ("") = ("") := by
    rw [List.getD_eq_getElem?_getD] at hx ⊢
    rw [List.getElem?_eq_getElem hlt] at hx ⊢
    exact hx
  have hpeek : a.Peek = ("") := by
    unfold argsList.Peek
    rw [if_neg (by simp [hp]), if_neg (by simp [argsList.EOF]; omega)]
    exact hg
  have hnext : a.Next = some ((""), { a with ptr := a.ptr + 1 }) := by
    rw [argsList.next_clean hp hlt, hg]
  refine And.intro hpeek (And.intro ?_ (And.intro ?_ (And.intro ?_ ?_)))
  · unfold argsList.Peek
    rw [if_neg (by simp [hp]), if_pos (by simp [argsList.EOF])]
  · rw [readArgStrings, if_pos rfl, if_pos (by rw [hpeek]; decide)]
  · rw [readArgStrings, if_neg (by decide), if_neg (by decide), if_pos rfl]
    exact greedyRead_stop (by rw [hpeek]; decide)
  · rw [readArgStrings, if_neg (by decide), if_pos rfl]
    split
    · rename_i s2 b2 heq
      rw [hnext] at heq
      injection heq with heq
      injection heq with e1 e2
      subst e1
      subst e2
      cases hgr : greedyRead { a with ptr := a.ptr + 1 } with
      | ok q =>
        obtain ⟨l1, b1⟩ := q
        rfl
      | cmdPanic m => rfl
    · rename_i heq
      rw [hnext] at heq
      exact absurd heq (by simp)

/-- C9 witness: the single empty input token is peeked as the sentinel,
left in place by Optional and ZeroOrMore, and consumed only by the
unconditional first read of OneOrMore. -/
theorem c9_empty_token_is_sentinel_w :
    argsList.Peek ⟨[("")], 0, ("")⟩ = ("")
    ∧ argsList.Peek ⟨[("")], 1, ("")⟩ = ("")
    ∧ readArgStrings Optional ⟨[("")], 0, ("")⟩ = .ok ([], ⟨[("")], 0, ("")⟩)
    ∧ readArgStrings ZeroOrMore ⟨[("")], 0, ("")⟩ = .ok ([], ⟨[("")], 0, ("")⟩)
    ∧ readArgStrings OneOrMore ⟨[("")], 0, ("")⟩
        = .ok ([("")], ⟨[("")], 1, ("")⟩) := by
  have h := c9_empty_token_is_sentinel ⟨[("")], 0, ("")⟩ rfl (by decide) (by decide)
  refine And.intro h.1 (And.intro h.2.1
    (And.intro h.2.2.1 (And.intro h.2.2.2.1 ?_)))
  have h5 := h.2.2.2.2
  rw [greedyRead_stop (by decide)] at h5
  exact h5.trans (by decide)

/-- C3 amended: when the dispatch engine classifies a token as an option
and its name (the first clustered character for the short form; the
dash-stripped name for the `=`-free long form) matches no registered
descriptor, the parse stops at once: `p.Error` prints usage and the
process exits with status 2 carrying the "No such option" message. The
token is neither accepted as a positional nor is any later token
processed; the caller gets no returned error value. -/
theorem c3_unknown_option_exits_process :
    ∀ (p : ArgumentParser) (a b : argsList) (posArgs : List String)
      (rec : Record) (t : String) (c : Char) (s n : List Char),
      (a.EOF = false → a.Next = some (t, b) → t.data = '-' :: '-' :: n →
        n ≠ [] → (∀ ch ∈ n, ch ≠ '=') →
        (∀ g ∈ p.OptionalArguments, g.LongName ≠ String.mk n) →
        parseLoop p a posArgs rec
          = .exit 2 (("No such option --") ++ String.mk n))
      ∧ (a.EOF = false → a.Next = some (t, b) → t.data = '-' :: c :: s →
        c ≠ '-' →
        (∀ g ∈ p.OptionalArguments, g.ShortName ≠ c) →
        parseLoop p a posArgs rec
          = .exit 2 (("No such option -") ++ c.toString)) := by
  intro p a b posArgs rec t c s n
  constructor
  · intro h1 h2 hdata hne hneq hlong
    have hlen : 1 < t.length := by
      show 1 < t.data.length
      rw [hdata]
      simp [List.length_cons]
    have ht2 : t ≠ ("--") := by
      intro he
      rw [he] at hdata
      have h0 : (("--") : String).data = ['-', '-'] := rfl
      rw [h0] at hdata
      injection hdata with e1 e2
      injection e2 with e2 e3
      exact hne e3.symm
    have h5 : t.data.head? = some '-' := by rw [hdata]; rfl
    have h6 : t.data.get? 1 = some '-' := by rw [hdata]; rfl
    rw [parseLoop_longStep h1 h2 ht2 hlen h5 h6]
    have hgd : goDrop t 2 = String.mk n := by
      simp [goDrop, hdata]
    rw [hgd]
    have hidx : (String.mk n).data.findIdx? (fun ch => ch = '=') = none := by
      show n.findIdx? _ = none
      rw [List.findIdx?_eq_none_iff]
      intro x hx
      simp [hneq x hx]
    simp only [parseLongOption, hidx]
    have hfind : p.OptionalArguments.find?
        (fun g => (String.mk n) = g.LongName) = none := by
      rw [List.find?_eq_none]
      intro x hx
      simp [Ne.symm (hlong x hx)]
    simp only [longLookup, hfind]
    simp [stepCont]
  · intro h1 h2 hdata hc hshort
    have hlen : 1 < t.length := by
      show 1 < t.data.length
      rw [hdata]
      simp [List.length_cons]
    have ht2 : t ≠ ("--") := by
      intro he
      rw [he] at hdata
      have h0 : (("--") : String).data = ['-', '-'] := rfl
      rw [h0] at hdata
      injection hdata with e1 e2
      injection e2 with e2 e3
      exact hc e2.symm
    have h5 : t.data.head? = some '-' := by rw [hdata]; rfl
    have h6 : ¬ t.data.get? 1 = some '-' := by
      rw [hdata]
      intro he
      have : c = '-' := by simpa using he
      exact hc this
    rw [parseLoop_shortStep h1 h2 ht2 hlen h5 h6]
    have hgd : (goDrop t 1).data = c :: s := by
      simp [goDrop, hdata]
    rw [hgd]
    have hfind : p.OptionalArguments.find? (fun g => g.ShortName = c) = none := by
      rw [List.find?_eq_none]
      intro x hx
      simp [hshort x hx]
    simp only [parseShortOptions, parseShortOption, hfind]
    simp [stepCont]

/-- C3 amended witness: the undeclared `--truc` and `-t` both terminate
the parse with exit status 2 and the matching message. -/
theorem c3_unknown_option_exits_process_w :
    parseLoop byParser ⟨[("--truc")], 0, ("")⟩ [] byRec
      = .exit 2 (("No such option --") ++ String.mk ['t', 'r', 'u', 'c'])
    ∧ parseLoop byParser ⟨[("-t")], 0, ("")⟩ [] byRec
      = .exit 2 (("No such option -") ++ 't'.toString) := by
  have h := c3_unknown_option_exits_process byParser ⟨[("--truc")], 0, ("")⟩
    ⟨[("--truc")], 1, ("")⟩ [] byRec ("--truc") 't' [] ['t', 'r', 'u', 'c']
  have h2 := c3_unknown_option_exits_process byParser ⟨[("-t")], 0, ("")⟩
    ⟨[("-t")], 1, ("")⟩ [] byRec ("-t") 't' [] ['t', 'r', 'u', 'c']
  exact And.intro
    (h.1 (by decide) (by decide) (by decide) (by decide) (by decide) (by decide))
    (h2.2 (by decide) (by decide) (by decide) (by decide) (by decide))

/-- C10: a token of length at most 1 (including `-` and the empty string)
is never dispatched as an option: the loop appends it to the positional
buffer and continues with the rest of the stream. -/
theorem c10_short_tokens_are_positional :
    ∀ (p : ArgumentParser) (a b : argsList) (posArgs : List String)
      (rec : Record) (t : String),
      a.EOF = false → a.Next = some (t, b) → t.length ≤ 1 →
      parseLoop p a posArgs rec = parseLoop p b (posArgs ++ [t]) rec := by
  intro p a b posArgs rec t h1 h2 h3
  refine parseLoop_posStep h1 h2 ?_ ?_
  · intro he
    rw [he] at h3
    exact absurd h3 (by decide)
  · intro hc
    exact Nat.lt_irrefl 1 (Nat.lt_of_lt_of_le hc.1 h3)

/-- C10 witness: the single-dash token is accumulated as a positional. -/
theorem c10_short_tokens_are_positional_w :
    parseLoop byParser ⟨[("-"), ("")], 0, ("")⟩ [] byRec
      = parseLoop byParser ⟨[("-"), ("")], 1, ("")⟩ ([] ++ [("-")]) byRec :=
  c10_short_tokens_are_positional byParser ⟨[("-"), ("")], 0, ("")⟩
    ⟨[("-"), ("")], 1, ("")⟩ [] byRec ("-") (by decide) (by decide) (by decide)
